import Mathlib

/-!
# Verification of the CGKR recommender core (`model.py`)

Shallow embedding of the CGKR knowledge-graph recommender:
batches are `List`s, embedding vectors are `Fin d → ℝ`, embedding
tables are total functions `ℕ → Fin d → ℝ` (mirroring tensor fancy
indexing), adjacency matrices are Mathlib `Matrix` values, and the
real-valued tensor operations (`log`, `sigmoid`, `norm`) are modelled
over `ℝ`.
-/

open scoped BigOperators

namespace CGKR

/-- Embedding vectors of dimension `d` (one row of a 2-D tensor). -/
abbrev V (d : ℕ) : Type := Fin d → ℝ

/-- `torch.sigmoid`: `1 / (1 + exp (-x))`. -/
noncomputable def sigmoid (x : ℝ) : ℝ := 1 / (1 + Real.exp (-x))

/-- The numerical floor used by both reward formulas (`gamma = 1e-10`). -/
noncomputable def gamma : ℝ := 1e-10

/-- `torch.mul(u, v).sum(dim=1)` for one batch row: the dot product. -/
noncomputable def dotV {d : ℕ} (u v : V d) : ℝ := ∑ j, u j * v j

/-- `torch.norm(e, dim=1, p=2)` for one batch row: the L2 norm. -/
noncomputable def vnorm {d : ℕ} (v : V d) : ℝ := Real.sqrt (∑ j, v j ^ 2)

/-- Batch scores: `torch.mul(u_embeddings, i_embeddings).sum(dim=1)`. -/
noncomputable def mulSum {d : ℕ} (u e : List (V d)) : List ℝ :=
  List.zipWith dotV u e

/-- `CGKR.get_reward1` (model.py lines 227-234):
`part1 = log(gamma + sigmoid(scores1 - scores2))`,
`part2 = -torch.norm(embeddings, dim=1, p=2)`,
returns `part1 + ib_beta * part2`. -/
noncomputable def get_reward1 {d : ℕ} (ib_beta : ℝ)
    (scores1 scores2 : List ℝ) (embeddings : List (V d)) : List ℝ :=
  let part1 := List.zipWith
    (fun a b => Real.log (gamma + sigmoid (a - b))) scores1 scores2
  let part2 := embeddings.map (fun v => -vnorm v)
  List.zipWith (fun p q => p + ib_beta * q) part1 part2

/-- `CGKR.get_reward2` (model.py lines 236-239):
`log(gamma + sigmoid(scores1 - scores2))`. -/
noncomputable def get_reward2 (scores1 scores2 : List ℝ) : List ℝ :=
  List.zipWith (fun a b => Real.log (gamma + sigmoid (a - b))) scores1 scores2

/-! ## Multi-hop neighbor expansion (`get_batch_neighbors`) -/

/-- One expansion step: `kg_neighbors[entities[i]].view(batch_size, -1)`.
Each batch row of entity IDs is replaced by the concatenation of the
neighbor lists of its entries. -/
def nextHop (N : ℕ → List ℕ) (rows : List (List ℕ)) : List (List ℕ) :=
  rows.map (fun r => r.flatMap N)

/-- The loop of `get_batch_neighbors` (model.py lines 135-136):
`entities.append(kg_neighbors[entities[i]].view(batch_size, -1))`,
carrying the accumulated hop list and the current hop. -/
def batch_neighbors_loop (N : ℕ → List ℕ) :
    ℕ → List (List (List ℕ)) → List (List ℕ) → List (List (List ℕ))
  | 0, acc, _ => acc
  | k + 1, acc, cur =>
      batch_neighbors_loop N k (acc ++ [nextHop N cur]) (nextHop N cur)

/-- `CGKR.get_batch_neighbors` (model.py lines 132-137): hop level 0 is
`items.unsqueeze(1)` (each batch row a singleton), and `n_kg_layers`
further hop levels are appended by repeated neighbor lookup. -/
def get_batch_neighbors (N : ℕ → List ℕ) (items : List ℕ)
    (n_kg_layers : ℕ) : List (List (List ℕ)) :=
  batch_neighbors_loop N n_kg_layers
    [items.map (fun i => [i])] (items.map (fun i => [i]))

/-! ## Counterfactual item embeddings (`get_cf_i_embeddings`) -/

/-- Mean of a list of vectors (`torch.mean` over a stacked dimension). -/
noncomputable def vmean {d : ℕ} (l : List (V d)) : V d :=
  fun j => (l.map (fun v => v j)).sum / l.length

/-- `reshape(batch, -1, m, dim).mean(dim=2)` on one batch row: average
each group of `m` consecutive vectors. -/
noncomputable def chunkMean {d : ℕ} (m : ℕ) : List (V d) → List (V d)
  | [] => []
  | x :: xs => vmean ((x :: xs).take m) :: chunkMean m (xs.drop (m - 1))
termination_by l => l.length
decreasing_by
  simp only [List.length_drop, List.length_cons]
  omega

/-- `self.entity_embedding(i)` on one hop level: embedding lookup. -/
def lookupRows {d : ℕ} (emb : ℕ → V d) (rows : List (List ℕ)) :
    List (List (V d)) :=
  rows.map (fun r => r.map emb)

/-- `.squeeze()` of a `B × 1 × d` tensor: the single vector of each row. -/
def squeezeRows {d : ℕ} (rows : List (List (V d))) : List (V d) :=
  rows.map (fun r => r.headI)

/-- The aggregation loop of `get_cf_i_embeddings` (model.py lines
143-153): the running `entity_vectors` list starts as the embedded hop
levels; each outer iteration records `entity_vectors[0].squeeze()` and
replaces every deeper level by its chunked mean over the neighbor
dimension. -/
noncomputable def cfStages {d : ℕ} (m : ℕ) :
    ℕ → List (List (List (V d))) → List (List (V d))
  | 0, ev => [squeezeRows ev.headI]
  | i + 1, ev =>
      squeezeRows ev.headI ::
        cfStages m i (ev.tail.map (fun rows => rows.map (chunkMean m)))

/-- `CGKR.get_cf_i_embeddings` (model.py lines 139-157): embed the hop
levels of `get_batch_neighbors`, fold them inward by chunked means, and
average the per-depth item embeddings (`torch.stack` + `mean(dim=1)`). -/
noncomputable def get_cf_i_embeddings {d : ℕ} (m n_kg_layers : ℕ)
    (entity_embedding : ℕ → V d) (kg_neighbors : ℕ → List ℕ)
    (items : List ℕ) : List (V d) :=
  let entities := get_batch_neighbors kg_neighbors items n_kg_layers
  let entity_vectors := entities.map (lookupRows entity_embedding)
  let stages := cfStages m n_kg_layers entity_vectors
  (List.range stages.headI.length).map
    (fun b => vmean (stages.map (fun s => s.getD b 0)))

/-! ## Losses and the reward / loss entry points -/

/-- Mean of a list of reals (`torch.mean`). -/
noncomputable def lmean (l : List ℝ) : ℝ := l.sum / l.length

/-- `recbole.model.loss.BPRLoss` with its default `gamma = 1e-10`:
`-log(gamma + sigmoid(pos_score - neg_score)).mean()`. -/
noncomputable def bpr_loss (pos_scores neg_scores : List ℝ) : ℝ :=
  -lmean (List.zipWith
    (fun p n => Real.log (gamma + sigmoid (p - n))) pos_scores neg_scores)

/-- `torch.nn.L1Loss` (mean reduction): mean absolute error. -/
noncomputable def mae_loss (a b : List ℝ) : ℝ :=
  lmean (List.zipWith (fun x y => |x - y|) a b)

/-- `CGKR.generate_pos_reward` (model.py lines 241-262). The true
scores use the propagated tables passed in; the counterfactual item
embeddings are built by `get_cf_i_embeddings` from the raw
`entity_embedding` table and the given neighbor tables. -/
noncomputable def generate_pos_reward {d : ℕ} (ib_beta : ℝ)
    (m n_kg_layers : ℕ) (users pos_items neg_items : List ℕ)
    (kg_neighbors1 kg_neighbors2 : ℕ → List ℕ)
    (user_all_embeddings entity_all_embeddings : ℕ → V d)
    (entity_embedding : ℕ → V d) : List ℝ × List ℝ :=
  let u_embeddings := users.map user_all_embeddings
  let posi_embeddings := pos_items.map entity_all_embeddings
  let negi_embeddings := neg_items.map entity_all_embeddings
  let pos_scores := mulSum u_embeddings posi_embeddings
  let neg_scores := mulSum u_embeddings negi_embeddings
  let cf_posi_embeddings1 :=
    get_cf_i_embeddings m n_kg_layers entity_embedding kg_neighbors1 pos_items
  let cf_pos_scores1 := mulSum u_embeddings cf_posi_embeddings1
  let reward1 := get_reward1 ib_beta cf_pos_scores1 neg_scores cf_posi_embeddings1
  let cf_posi_embeddings2 :=
    get_cf_i_embeddings m n_kg_layers entity_embedding kg_neighbors2 pos_items
  let cf_pos_scores2 := mulSum u_embeddings cf_posi_embeddings2
  let reward2 := get_reward2 pos_scores cf_pos_scores2
  (reward1, reward2)

/-- `CGKR.generate_neg_reward` (model.py lines 264-285). Note the
literal argument order of `reward2 = get_reward2(cf_neg_scores2,
neg_scores)` on line 283. -/
noncomputable def generate_neg_reward {d : ℕ} (ib_beta : ℝ)
    (m n_kg_layers : ℕ) (users pos_items neg_items : List ℕ)
    (kg_neighbors1 kg_neighbors2 : ℕ → List ℕ)
    (user_all_embeddings entity_all_embeddings : ℕ → V d)
    (entity_embedding : ℕ → V d) : List ℝ × List ℝ :=
  let u_embeddings := users.map user_all_embeddings
  let posi_embeddings := pos_items.map entity_all_embeddings
  let negi_embeddings := neg_items.map entity_all_embeddings
  let pos_scores := mulSum u_embeddings posi_embeddings
  let neg_scores := mulSum u_embeddings negi_embeddings
  let cf_negi_embeddings1 :=
    get_cf_i_embeddings m n_kg_layers entity_embedding kg_neighbors1 neg_items
  let cf_neg_scores1 := mulSum u_embeddings cf_negi_embeddings1
  let reward1 := get_reward1 ib_beta pos_scores cf_neg_scores1 cf_negi_embeddings1
  let cf_negi_embeddings2 :=
    get_cf_i_embeddings m n_kg_layers entity_embedding kg_neighbors2 neg_items
  let cf_neg_scores2 := mulSum u_embeddings cf_negi_embeddings2
  let reward2 := get_reward2 cf_neg_scores2 neg_scores
  (reward1, reward2)

/-- `CGKR.calculate_loss` (model.py lines 163-207). The optional
`pre`-computed `(user, entity)` embedding tables stand for the
`user_all_embeddings` / `entity_all_embeddings` arguments (the code
calls `self.forward()` exactly when they are not supplied; `fwd` is
that forward result). Counterfactual scores use `get_cf_i_embeddings`
on the raw `entity_embedding` table. Returns the tuple of losses as a
list. -/
noncomputable def calculate_loss {d : ℕ} (cf_pos_flag cf_neg_flag : Bool)
    (cf_loss_function : String) (cf_pos_weight cf_neg_weight : ℝ)
    (m n_kg_layers : ℕ) (users pos_items neg_items : List ℕ)
    (cf_pos_kg_neighbors cf_neg_kg_neighbors : ℕ → List ℕ)
    (entity_embedding : ℕ → V d)
    (pre : Option ((ℕ → V d) × (ℕ → V d)))
    (fwd : (ℕ → V d) × (ℕ → V d)) : List ℝ :=
  let t := pre.getD fwd
  let user_all_embeddings := t.1
  let entity_all_embeddings := t.2
  let u_embeddings := users.map user_all_embeddings
  let posi_embeddings := pos_items.map entity_all_embeddings
  let negi_embeddings := neg_items.map entity_all_embeddings
  let pos_scores := mulSum u_embeddings posi_embeddings
  let neg_scores := mulSum u_embeddings negi_embeddings
  let losses := [bpr_loss pos_scores neg_scores]
  let losses :=
    if cf_pos_flag then
      let cf_posi_embeddings := get_cf_i_embeddings m n_kg_layers
        entity_embedding cf_pos_kg_neighbors pos_items
      let cf_pos_scores := mulSum u_embeddings cf_posi_embeddings
      let cf_pos_loss :=
        if cf_loss_function = "mae" then mae_loss pos_scores cf_pos_scores
        else bpr_loss cf_pos_scores neg_scores
      losses ++ [cf_pos_weight * cf_pos_loss]
    else losses
  let losses :=
    if cf_neg_flag then
      let cf_negi_embeddings := get_cf_i_embeddings m n_kg_layers
        entity_embedding cf_neg_kg_neighbors neg_items
      let cf_neg_scores := mulSum u_embeddings cf_negi_embeddings
      let cf_neg_loss :=
        if cf_loss_function = "mae" then mae_loss neg_scores cf_neg_scores
        else bpr_loss pos_scores cf_neg_scores
      losses ++ [cf_neg_weight * cf_neg_loss]
    else losses
  losses

/-! ## Graph propagation (`through_graph`) -/

/-- The loop of `through_graph` (model.py lines 109-111): repeatedly
left-multiply by the sparse adjacency, appending each layer to the
accumulated list. -/
def through_graph_loop {α ι κ : Type} [Field α] [Fintype ι]
    (adj : Matrix ι ι α) :
    ℕ → List (Matrix ι κ α) → Matrix ι κ α → List (Matrix ι κ α)
  | 0, acc, _ => acc
  | k + 1, acc, cur => through_graph_loop adj k (acc ++ [adj * cur]) (adj * cur)

/-- `torch.stack(..., dim=1)` followed by `torch.mean(..., dim=1)`:
the entry-wise mean of a list of matrices. -/
def matListMean {α ι κ : Type} [Field α] (l : List (Matrix ι κ α)) :
    Matrix ι κ α :=
  ((l.length : α))⁻¹ • l.sum

/-- `CGKR.through_graph` (model.py lines 106-114): the mean over all
propagation depths `0, 1, ..., n_layers` of `adj^k * E`, starting from
the input embeddings. -/
def through_graph {α ι κ : Type} [Field α] [Fintype ι]
    (adj : Matrix ι ι α) (all_embeddings : Matrix ι κ α) (n_layers : ℕ) :
    Matrix ι κ α :=
  matListMean (through_graph_loop adj n_layers [all_embeddings] all_embeddings)

/-! ## Adjacency construction (`norm_adj`, `get_ui_adj`, `get_kg_adj`) -/

/-- `(adj > 0).sum(axis=1)` (model.py line 19): the number of positive
entries of a row. -/
def degree {ι : Type} [Fintype ι] (adj : Matrix ι ι ℚ) (x : ι) : ℕ :=
  (Finset.univ.filter (fun y => 0 < adj x y)).card

/-- `norm_adj` (model.py lines 18-24): symmetric degree normalization
`D^(-1/2) * A * D^(-1/2)` with the stabilizing `1e-7` added to each
row's positive-entry count (`np.power(count + 1e-7, -0.5)`).
The 0/1 source matrices are embedded over `ℚ`; the normalized result
lives over `ℝ`. -/
noncomputable def norm_adj {ι : Type} [Fintype ι] (adj : Matrix ι ι ℚ) :
    Matrix ι ι ℝ :=
  Matrix.of fun x y =>
    (Real.sqrt ((degree adj x : ℝ) + 1e-7))⁻¹ * ((adj x y : ℚ) : ℝ)
      * (Real.sqrt ((degree adj y : ℝ) + 1e-7))⁻¹

/-- The unnormalized block adjacency built by `get_ui_adj` (model.py
lines 80-87): entry 1 between user `u` and item `i` (in both
directions) exactly when they interact, 0 elsewhere. -/
def ui_adj_raw {nU nI : ℕ} (R : Fin nU → Fin nI → Bool) :
    Matrix (Fin nU ⊕ Fin nI) (Fin nU ⊕ Fin nI) ℚ :=
  Matrix.of fun x y =>
    Sum.elim
      (fun u => Sum.elim (fun _ => (0 : ℚ))
        (fun i => if R u i then 1 else 0) y)
      (fun i => Sum.elim (fun u => if R u i then 1 else 0)
        (fun _ => (0 : ℚ)) y) x

/-- `CGKR.get_ui_adj` (model.py lines 79-90): the normalized UI block
adjacency (`convert_to_tensor` only changes the sparse storage format
and is omitted). -/
noncomputable def get_ui_adj {nU nI : ℕ} (R : Fin nU → Fin nI → Bool) :
    Matrix (Fin nU ⊕ Fin nI) (Fin nU ⊕ Fin nI) ℝ :=
  norm_adj (ui_adj_raw R)

/-- The `(i, c)` key list inserted into the dok dict by `get_kg_adj`
(model.py lines 94-99): one pair per nonzero neighbor slot, in slot
order. -/
def kg_pairs (n_entities : ℕ) (kg_neighbors : ℕ → List ℕ) :
    List (ℕ × ℕ) :=
  (List.range n_entities).flatMap
    (fun i => ((kg_neighbors i).filter (fun c => c ≠ 0)).map (fun c => (i, c)))

/-- `CGKR.get_kg_adj` (model.py lines 92-104): every inserted key maps
to `1 / max_neighbor_size`; keys absent from the dict give 0. Duplicate
`(i, c)` keys collapse to a single dict entry. -/
def get_kg_adj (n_entities max_neighbor_size : ℕ)
    (kg_neighbors : ℕ → List ℕ) : ℕ → ℕ → ℚ :=
  fun i c =>
    if (i, c) ∈ kg_pairs n_entities kg_neighbors
    then 1 / (max_neighbor_size : ℚ) else 0

/-! ## `forward`, `full_sort_predict` and the mutable model state -/

/-- `CGKR.forward` (model.py lines 116-130): KG propagation of the
entity table, then UI propagation of users concatenated with the first
`n_items` KG-propagated rows; only the user half of the UI output is
kept, and the KG-propagated entity table is returned unchanged. -/
noncomputable def forward {nU nI nE d : ℕ} (h : nI ≤ nE)
    (kg_adj : Matrix (Fin nE) (Fin nE) ℝ)
    (ui_adj : Matrix (Fin nU ⊕ Fin nI) (Fin nU ⊕ Fin nI) ℝ)
    (user_embedding : Matrix (Fin nU) (Fin d) ℝ)
    (entity_embedding : Matrix (Fin nE) (Fin d) ℝ)
    (n_kg_layers n_ui_layers : ℕ) :
    Matrix (Fin nU) (Fin d) ℝ × Matrix (Fin nE) (Fin d) ℝ :=
  let entity_embeddings := through_graph kg_adj entity_embedding n_kg_layers
  let item_embeddings : Matrix (Fin nI) (Fin d) ℝ :=
    Matrix.of fun i j => entity_embeddings (Fin.castLE h i) j
  let ui_embeddings : Matrix (Fin nU ⊕ Fin nI) (Fin d) ℝ :=
    Matrix.of fun x j =>
      Sum.elim (fun u => user_embedding u j) (fun i => item_embeddings i j) x
  let ui_out := through_graph ui_adj ui_embeddings n_ui_layers
  let user_embeddings : Matrix (Fin nU) (Fin d) ℝ :=
    Matrix.of fun u j => ui_out (Sum.inl u) j
  (user_embeddings, entity_embeddings)

/-- `CGKR.full_sort_predict` (model.py lines 209-222) scoring: the
cached user embedding row dotted with every cached item embedding row
(`torch.matmul(u, items.T)`). -/
noncomputable def full_sort_predict {nU nI d : ℕ}
    (restore_user_e : Matrix (Fin nU) (Fin d) ℝ)
    (restore_item_e : Matrix (Fin nI) (Fin d) ℝ)
    (user : Fin nU) : Fin nI → ℝ :=
  fun i => ∑ j, restore_user_e user j * restore_item_e i j

/-- Total-table view of a matrix of embedding rows (tensor fancy
indexing over entity/user IDs; out-of-range IDs give the zero row). -/
noncomputable def flattenTab {n d : ℕ} (M : Matrix (Fin n) (Fin d) ℝ) :
    ℕ → V d :=
  fun e => if he : e < n then (fun j => M ⟨e, he⟩ j) else 0

/-- Model dimensions and immutable adjacency state (from `__init__`). -/
structure Params where
  nU : ℕ
  nI : ℕ
  nE : ℕ
  d : ℕ
  hNI : nI ≤ nE
  kg_adj : Matrix (Fin nE) (Fin nE) ℝ
  ui_adj : Matrix (Fin nU ⊕ Fin nI) (Fin nU ⊕ Fin nI) ℝ
  n_kg_layers : ℕ
  n_ui_layers : ℕ

/-- Mutable model state: the two embedding tables and the two restore
caches (`restore_user_e` / `restore_item_e`). -/
structure MState (p : Params) where
  userW : ℕ → V p.d
  entityW : ℕ → V p.d
  restore_user_e : Option (ℕ → V p.d)
  restore_item_e : Option (ℕ → V p.d)

/-- `__init__` (model.py lines 65-77): arbitrary (Xavier) initial
weights, then `weight.data[0].fill_(0)` for both tables; caches start
empty. -/
def initState (p : Params) (Wu We : ℕ → V p.d) : MState p where
  userW := fun i => if i = 0 then 0 else Wu i
  entityW := fun i => if i = 0 then 0 else We i
  restore_user_e := none
  restore_item_e := none

/-- Matrix view of the first `n` rows of an embedding table. -/
def tableMatrix {d : ℕ} (n : ℕ) (t : ℕ → V d) : Matrix (Fin n) (Fin d) ℝ :=
  Matrix.of fun i j => t i j

/-- `self.forward()` on the current state. -/
noncomputable def forwardOf (p : Params) (st : MState p) :
    Matrix (Fin p.nU) (Fin p.d) ℝ × Matrix (Fin p.nE) (Fin p.d) ℝ :=
  forward p.hNI p.kg_adj p.ui_adj (tableMatrix p.nU st.userW)
    (tableMatrix p.nE st.entityW) p.n_kg_layers p.n_ui_layers

/-- The model operations whose effect on the state we track. -/
inductive Op where
  | forwardOp
  | calculateLossOp
  | fullSortPredictOp
  | genPosRewardOp
  | genNegRewardOp

/-- State effect of each operation: `forward` and the two reward
generators are pure; `calculate_loss` clears the restore caches when
either is set (lines 165-166); `full_sort_predict` fills both caches
from `forward` when either is empty (lines 210-212), the item cache
holding the first `n_items` entity rows. No operation writes the
embedding tables. -/
noncomputable def step (p : Params) (st : MState p) : Op → MState p
  | .forwardOp => st
  | .calculateLossOp =>
      if st.restore_user_e.isSome || st.restore_item_e.isSome then
        { st with restore_user_e := none, restore_item_e := none }
      else st
  | .fullSortPredictOp =>
      if st.restore_user_e.isNone || st.restore_item_e.isNone then
        { st with
            restore_user_e := some (flattenTab (forwardOf p st).1)
            restore_item_e := some (flattenTab
              (Matrix.of fun (i : Fin p.nI) j =>
                (forwardOf p st).2 (Fin.castLE p.hNI i) j)) }
      else st
  | .genPosRewardOp => st
  | .genNegRewardOp => st

/-- Run a sequence of operations. -/
noncomputable def runOps (p : Params) (st : MState p) (ops : List Op) :
    MState p :=
  ops.foldl (fun s o => step p s o) st

/-- Concrete 1x1 all-ones matrix (for example instantiations). -/
noncomputable def exSq1 : Matrix (Fin 1) (Fin 1) ℝ := Matrix.of fun _ _ => 1

/-- Concrete all-ones UI-block matrix on `Fin 1 ⊕ Fin 1`. -/
noncomputable def exUi1 : Matrix (Fin 1 ⊕ Fin 1) (Fin 1 ⊕ Fin 1) ℝ :=
  Matrix.of fun _ _ => 1

/-- Concrete all-twos UI-block matrix on `Fin 1 ⊕ Fin 1`. -/
noncomputable def exUi2 : Matrix (Fin 1 ⊕ Fin 1) (Fin 1 ⊕ Fin 1) ℝ :=
  Matrix.of fun _ _ => 2

end CGKR

namespace CGKR

/-- Helper: `zipWith` evaluated with `getD` below both lengths. -/
theorem zipWith_getD {α β γ : Type} (f : α → β → γ) (l₁ : List α)
    (l₂ : List β) (i : ℕ) (h₁ : i < l₁.length) (h₂ : i < l₂.length)
    (a : α) (b : β) (c : γ) :
    (List.zipWith f l₁ l₂).getD i c = f (l₁.getD i a) (l₂.getD i b) := by
  induction l₁ generalizing l₂ i with
  | nil => simp at h₁
  | cons x xs ih =>
    cases l₂ with
    | nil => simp at h₂
    | cons y ys =>
      cases i with
      | zero => simp
      | succ n =>
        simp only [List.zipWith_cons_cons, List.getD_cons_succ]
        exact ih ys n (by simpa using h₁) (by simpa using h₂)

/-- Helper: `map` evaluated with `getD` below the length. -/
theorem map_getD {α β : Type} (f : α → β) (l : List α) (i : ℕ)
    (h : i < l.length) (a : α) (b : β) :
    (l.map f).getD i b = f (l.getD i a) := by
  induction l generalizing i with
  | nil => simp at h
  | cons x xs ih =>
    cases i with
    | zero => simp
    | succ n =>
      simp only [List.map_cons, List.getD_cons_succ]
      exact ih n (by simpa using h)

theorem sigmoid_pos (x : ℝ) : 0 < sigmoid x := by
  unfold sigmoid
  positivity

theorem sigmoid_strictMono : StrictMono sigmoid := by
  intro a b hab
  unfold sigmoid
  have hb : (0 : ℝ) < 1 + Real.exp (-b) := by positivity
  apply one_div_lt_one_div_of_lt hb
  have h := Real.exp_lt_exp.mpr (neg_lt_neg hab)
  linarith

theorem gamma_pos : 0 < gamma := by
  unfold gamma
  norm_num

/-- The shared core `t ↦ log (gamma + sigmoid t)` of both rewards is
strictly increasing. -/
theorem log_gamma_sigmoid_strictMono :
    StrictMono (fun t => Real.log (gamma + sigmoid t)) := by
  intro a b hab
  have ha : 0 < gamma + sigmoid a := by
    have := sigmoid_pos a
    have := gamma_pos
    linarith
  exact Real.log_lt_log ha (by linarith [sigmoid_strictMono hab])

/-- Entry-wise evaluation of `get_reward1`. -/
theorem get_reward1_getD {d : ℕ} (ib_beta : ℝ) (s1 s2 : List ℝ)
    (emb : List (V d)) (i : ℕ) (h1 : i < s1.length) (h2 : i < s2.length)
    (h3 : i < emb.length) :
    (get_reward1 ib_beta s1 s2 emb).getD i 0
      = Real.log (gamma + sigmoid (s1.getD i 0 - s2.getD i 0))
        + ib_beta * (-vnorm (emb.getD i 0)) := by
  simp only [get_reward1]
  rw [zipWith_getD (fun p q => p + ib_beta * q) _ _ i
      (by simp; omega) (by simp; omega) 0 0 0,
    zipWith_getD _ s1 s2 i h1 h2 0 0 0,
    map_getD _ emb i h3 0 0]

/-- Entry-wise evaluation of `get_reward2`. -/
theorem get_reward2_getD (s1 s2 : List ℝ) (i : ℕ)
    (h1 : i < s1.length) (h2 : i < s2.length) :
    (get_reward2 s1 s2).getD i 0
      = Real.log (gamma + sigmoid (s1.getD i 0 - s2.getD i 0)) := by
  simp only [get_reward2]
  rw [zipWith_getD _ s1 s2 i h1 h2 0 0 0]

/-- C4: `get_reward1(scoresA, scoresB, embeddings)` equals
`log(1e-10 + sigmoid(scoresA - scoresB)) - ib_beta * L2norm(embeddings)`
row-wise, and `get_reward2(scoresA, scoresB)` equals
`log(1e-10 + sigmoid(scoresA - scoresB))` row-wise, with the floor
constant `1e-10` and the sigmoid written out as `1/(1+exp(-x))`. -/
theorem get_reward_formulas {d : ℕ} (ib_beta : ℝ) (s1 s2 : List ℝ)
    (emb : List (V d)) (i : ℕ) (h1 : i < s1.length) (h2 : i < s2.length)
    (h3 : i < emb.length) :
    (get_reward1 ib_beta s1 s2 emb).getD i 0
      = Real.log ((1e-10 : ℝ)
            + 1 / (1 + Real.exp (-(s1.getD i 0 - s2.getD i 0))))
        - ib_beta * Real.sqrt (∑ j, (emb.getD i 0) j ^ 2)
    ∧ (get_reward2 s1 s2).getD i 0
      = Real.log ((1e-10 : ℝ)
            + 1 / (1 + Real.exp (-(s1.getD i 0 - s2.getD i 0)))) := by
  constructor
  · rw [get_reward1_getD ib_beta s1 s2 emb i h1 h2 h3]
    simp only [sigmoid, gamma, vnorm]
    ring
  · rw [get_reward2_getD s1 s2 i h1 h2]
    simp only [sigmoid, gamma]

/-- Witness for `get_reward_formulas` at a concrete input. -/
theorem get_reward_formulas_witness :
    (0 < ([(1 : ℝ)]).length ∧ 0 < ([(0 : ℝ)]).length
      ∧ 0 < ([((fun _ => 3) : V 1)]).length)
    ∧ ((get_reward1 (2 : ℝ) [1] [0] [((fun _ => 3) : V 1)]).getD 0 0
        = Real.log ((1e-10 : ℝ)
              + 1 / (1 + Real.exp (-(([(1 : ℝ)].getD 0 0)
                  - ([(0 : ℝ)].getD 0 0)))))
          - 2 * Real.sqrt (∑ j, (([((fun _ => 3) : V 1)].getD 0 0) j) ^ 2)
      ∧ (get_reward2 [1] [0]).getD 0 0
        = Real.log ((1e-10 : ℝ)
              + 1 / (1 + Real.exp (-(([(1 : ℝ)].getD 0 0)
                  - ([(0 : ℝ)].getD 0 0)))))) :=
  ⟨⟨by simp, by simp, by simp⟩,
    get_reward_formulas 2 [1] [0] [((fun _ => 3) : V 1)] 0
      (by simp) (by simp) (by simp)⟩

/-- C9: row-wise, `get_reward1` and `get_reward2` depend on the score
arguments only through the difference `scoresA - scoresB` (equal
differences give equal rewards) and are strictly increasing in that
difference. -/
theorem rewards_monotone_in_gap {d : ℕ} (ib_beta : ℝ)
    (s1 s2 s1' s2' : List ℝ) (emb : List (V d)) (i : ℕ)
    (h1 : i < s1.length) (h2 : i < s2.length)
    (h1' : i < s1'.length) (h2' : i < s2'.length) (he : i < emb.length)
    (hgap : s1.getD i 0 - s2.getD i 0 < s1'.getD i 0 - s2'.getD i 0) :
    ((get_reward1 ib_beta s1 s2 emb).getD i 0
        < (get_reward1 ib_beta s1' s2' emb).getD i 0
      ∧ (get_reward2 s1 s2).getD i 0 < (get_reward2 s1' s2').getD i 0)
    ∧ (∀ t1 t2 t1' t2' : List ℝ, i < t1.length → i < t2.length →
        i < t1'.length → i < t2'.length →
        t1.getD i 0 - t2.getD i 0 = t1'.getD i 0 - t2'.getD i 0 →
        (get_reward1 ib_beta t1 t2 emb).getD i 0
            = (get_reward1 ib_beta t1' t2' emb).getD i 0
          ∧ (get_reward2 t1 t2).getD i 0
            = (get_reward2 t1' t2').getD i 0) := by
  constructor
  · constructor
    · rw [get_reward1_getD ib_beta s1 s2 emb i h1 h2 he,
        get_reward1_getD ib_beta s1' s2' emb i h1' h2' he]
      have := log_gamma_sigmoid_strictMono hgap
      simp only at this
      linarith
    · rw [get_reward2_getD s1 s2 i h1 h2,
        get_reward2_getD s1' s2' i h1' h2']
      exact log_gamma_sigmoid_strictMono hgap
  · intro t1 t2 t1' t2' k1 k2 k1' k2' heq
    constructor
    · rw [get_reward1_getD ib_beta t1 t2 emb i k1 k2 he,
        get_reward1_getD ib_beta t1' t2' emb i k1' k2' he, heq]
    · rw [get_reward2_getD t1 t2 i k1 k2,
        get_reward2_getD t1' t2' i k1' k2', heq]

/-- Witness for `rewards_monotone_in_gap` at a concrete input. -/
theorem rewards_monotone_in_gap_witness :
    (([(0 : ℝ)].getD 0 0 - [(0 : ℝ)].getD 0 0
        < [(1 : ℝ)].getD 0 0 - [(0 : ℝ)].getD 0 0)
      ∧ 0 < ([(0 : ℝ)]).length ∧ 0 < ([((fun _ => 3) : V 1)]).length)
    ∧ (((get_reward1 (2 : ℝ) [0] [0] [((fun _ => 3) : V 1)]).getD 0 0
          < (get_reward1 (2 : ℝ) [1] [0] [((fun _ => 3) : V 1)]).getD 0 0
        ∧ (get_reward2 [0] [0]).getD 0 0 < (get_reward2 [1] [0]).getD 0 0)
      ∧ (∀ t1 t2 t1' t2' : List ℝ, 0 < t1.length → 0 < t2.length →
          0 < t1'.length → 0 < t2'.length →
          t1.getD 0 0 - t2.getD 0 0 = t1'.getD 0 0 - t2'.getD 0 0 →
          (get_reward1 (2 : ℝ) t1 t2 [((fun _ => 3) : V 1)]).getD 0 0
              = (get_reward1 (2 : ℝ) t1' t2' [((fun _ => 3) : V 1)]).getD 0 0
            ∧ (get_reward2 t1 t2).getD 0 0
              = (get_reward2 t1' t2').getD 0 0)) :=
  ⟨⟨by norm_num, by simp, by simp⟩,
    rewards_monotone_in_gap 2 [0] [0] [1] [0] [((fun _ => 3) : V 1)] 0
      (by simp) (by simp) (by simp) (by simp) (by simp) (by norm_num)⟩

/-- Helper: a mapped range of iterates peels off the zeroth iterate. -/
theorem map_range_iterate_succ {α : Type} (f : α → α) (x : α) (n : ℕ) :
    (List.range (n + 1)).map (fun k => f^[k] x)
      = x :: (List.range n).map (fun k => f^[k] (f x)) := by
  rw [List.range_succ_eq_map, List.map_cons, List.map_map]
  have h : ((fun k => f^[k] x) ∘ Nat.succ) = fun k => f^[k] (f x) := by
    funext a
    simp [Function.comp, Function.iterate_succ_apply]
  rw [h]
  simp

/-- The hop loop unrolls to iterates of `nextHop`. -/
theorem batch_neighbors_loop_eq (N : ℕ → List ℕ) (k : ℕ)
    (acc : List (List (List ℕ))) (cur : List (List ℕ)) :
    batch_neighbors_loop N k acc cur
      = acc ++ (List.range k).map (fun j => (nextHop N)^[j] (nextHop N cur)) := by
  induction k generalizing acc cur with
  | zero => simp [batch_neighbors_loop]
  | succ k ih =>
    rw [batch_neighbors_loop, ih, map_range_iterate_succ]
    simp [List.append_assoc]

/-- `get_batch_neighbors` is the list of `nextHop` iterates on the
singleton-column view of the item batch. -/
theorem get_batch_neighbors_eq (N : ℕ → List ℕ) (items : List ℕ) (L : ℕ) :
    get_batch_neighbors N items L
      = (List.range (L + 1)).map
          (fun k => (nextHop N)^[k] (items.map (fun i => [i]))) := by
  rw [get_batch_neighbors, batch_neighbors_loop_eq, map_range_iterate_succ]
  simp

/-- Helper: `getD` on a mapped range. -/
theorem range_map_getD {α : Type} (f : ℕ → α) (n k : ℕ) (h : k < n)
    (dflt : α) : ((List.range n).map f).getD k dflt = f k := by
  rw [List.getD_eq_getElem?_getD, List.getElem?_map, List.getElem?_range h]
  rfl

/-- `nextHop` iterates preserve the batch size (number of rows). -/
theorem nextHop_iterate_length (N : ℕ → List ℕ) (k : ℕ)
    (rows : List (List ℕ)) :
    ((nextHop N)^[k] rows).length = rows.length := by
  induction k generalizing rows with
  | zero => simp
  | succ k ih =>
    rw [Function.iterate_succ_apply, ih]
    simp [nextHop]

/-- Row width after one `nextHop` step multiplies by the (uniform)
neighbor-list length. -/
theorem nextHop_row_length (N : ℕ → List ℕ) (m : ℕ)
    (hm : ∀ e, (N e).length = m) (r : List ℕ) :
    (r.flatMap N).length = r.length * m := by
  induction r with
  | nil => simp
  | cons x xs ih =>
    simp only [List.flatMap_cons, List.length_append, ih, hm, List.length_cons]
    ring

/-- Row widths after `k` `nextHop` steps multiply by `m ^ k`. -/
theorem nextHop_iterate_row_length (N : ℕ → List ℕ) (m : ℕ)
    (hm : ∀ e, (N e).length = m) (k : ℕ) :
    ∀ (rows : List (List ℕ)) (p : ℕ), (∀ r ∈ rows, r.length = p) →
      ∀ r ∈ (nextHop N)^[k] rows, r.length = p * m ^ k := by
  induction k with
  | zero => intro rows p hp r hr; simpa using hp r (by simpa using hr)
  | succ k ih =>
    intro rows p hp r hr
    rw [Function.iterate_succ_apply] at hr
    have hstep : ∀ r ∈ nextHop N rows, r.length = p * m := by
      intro r hr
      obtain ⟨s, hs, rfl⟩ := List.mem_map.mp hr
      rw [nextHop_row_length N m hm s, hp s hs]
    have := ih (nextHop N rows) (p * m) hstep r hr
    rw [this]
    ring

/-- C7: with `n_kg_layers = L` and every neighbor list of length `m`,
`get_batch_neighbors` returns exactly `L + 1` hop levels; hop 0 is the
input item batch as singleton rows; hop `k` has one row per batch item,
each of width `m ^ k`; and hop `k + 1` is the flattened neighbor lookup
of hop `k`. -/
theorem get_batch_neighbors_spec (N : ℕ → List ℕ) (m : ℕ)
    (items : List ℕ) (L : ℕ) (hm : ∀ e, (N e).length = m) :
    (get_batch_neighbors N items L).length = L + 1
    ∧ (get_batch_neighbors N items L).getD 0 [] = items.map (fun i => [i])
    ∧ (∀ k, k ≤ L →
        ((get_batch_neighbors N items L).getD k []).length = items.length
        ∧ ∀ r ∈ (get_batch_neighbors N items L).getD k [],
            r.length = m ^ k)
    ∧ ∀ k, k < L →
        (get_batch_neighbors N items L).getD (k + 1) []
          = nextHop N ((get_batch_neighbors N items L).getD k []) := by
  rw [get_batch_neighbors_eq]
  refine ⟨by simp, ?_, ?_, ?_⟩
  · rw [range_map_getD _ _ 0 (by omega)]
    simp
  · intro k hk
    rw [range_map_getD _ _ k (by omega)]
    constructor
    · rw [nextHop_iterate_length]
      simp
    · intro r hr
      have h1 : ∀ s ∈ items.map (fun i => ([i] : List ℕ)), s.length = 1 := by
        intro s hs
        obtain ⟨i, _, rfl⟩ := List.mem_map.mp hs
        rfl
      simpa using nextHop_iterate_row_length N m hm k
        (items.map (fun i => [i])) 1 h1 r hr
  · intro k hk
    rw [range_map_getD _ _ (k + 1) (by omega), range_map_getD _ _ k (by omega),
      Function.iterate_succ_apply']

/-- Witness for `get_batch_neighbors_spec` at a concrete input. -/
theorem get_batch_neighbors_spec_witness :
    (∀ e : ℕ, (((fun _ => [1, 2]) : ℕ → List ℕ) e).length = 2)
    ∧ ((get_batch_neighbors (fun _ => [1, 2]) [5, 7] 2).length = 2 + 1
      ∧ (get_batch_neighbors (fun _ => [1, 2]) [5, 7] 2).getD 0 []
          = [5, 7].map (fun i => [i])
      ∧ (∀ k, k ≤ 2 →
          ((get_batch_neighbors (fun _ => [1, 2]) [5, 7] 2).getD k []).length
              = ([5, 7] : List ℕ).length
          ∧ ∀ r ∈ (get_batch_neighbors (fun _ => [1, 2]) [5, 7] 2).getD k [],
              r.length = 2 ^ k)
      ∧ ∀ k, k < 2 →
          (get_batch_neighbors (fun _ => [1, 2]) [5, 7] 2).getD (k + 1) []
            = nextHop (fun _ => [1, 2])
                ((get_batch_neighbors (fun _ => [1, 2]) [5, 7] 2).getD k [])) :=
  ⟨fun _ => rfl,
    get_batch_neighbors_spec (fun _ => [1, 2]) 2 [5, 7] 2 (fun _ => rfl)⟩

/-- `get_batch_neighbors` starts with the singleton-column item batch. -/
theorem get_batch_neighbors_cons (N : ℕ → List ℕ) (items : List ℕ) (L : ℕ) :
    get_batch_neighbors N items L
      = items.map (fun i => [i]) ::
        (List.range L).map
          (fun k => (nextHop N)^[k] (nextHop N (items.map (fun i => [i])))) := by
  rw [get_batch_neighbors_eq, map_range_iterate_succ]

/-- The first recorded stage of the aggregation loop is the squeezed
hop-0 level. -/
theorem cfStages_headI {d : ℕ} (m i : ℕ) (ev : List (List (List (V d)))) :
    (cfStages m i ev).headI = squeezeRows ev.headI := by
  cases i with
  | zero => simp [cfStages]
  | succ n => simp [cfStages]

/-- The counterfactual item-embedding batch has one row per input item. -/
theorem get_cf_i_embeddings_length {d : ℕ} (m L : ℕ) (emb : ℕ → V d)
    (N : ℕ → List ℕ) (items : List ℕ) :
    (get_cf_i_embeddings m L emb N items).length = items.length := by
  simp [get_cf_i_embeddings, cfStages_headI, get_batch_neighbors_cons,
    squeezeRows, lookupRows]

/-- Entry-wise evaluation of `mulSum`. -/
theorem mulSum_getD {d : ℕ} (u e : List (V d)) (i : ℕ)
    (hu : i < u.length) (he : i < e.length) :
    (mulSum u e).getD i 0 = dotV (u.getD i 0) (e.getD i 0) :=
  zipWith_getD dotV u e i hu he 0 0 0

/-- C5: with pre-computed embedding tables, `calculate_loss` returns
the BPR loss of the true positive/negative scores, followed exactly
when `cf_pos_flag` by `cf_pos_weight` times the positive-consistency
loss (MAE of true-vs-counterfactual positive scores if
`cf_loss_function = "mae"`, else the BPR loss of counterfactual
positive vs true negative scores), followed exactly when `cf_neg_flag`
by the mirrored negative term; the result ignores the forward result
when tables are passed in, and the missing-table case fills in the
forward result. -/
theorem calculate_loss_spec {d : ℕ} (cf_pos_flag cf_neg_flag : Bool)
    (lf : String) (wp wn : ℝ) (m L : ℕ)
    (users pos_items neg_items : List ℕ) (Np Nn : ℕ → List ℕ)
    (emb uT eT : ℕ → V d) (fwd fwd' : (ℕ → V d) × (ℕ → V d)) :
    (calculate_loss cf_pos_flag cf_neg_flag lf wp wn m L users pos_items
        neg_items Np Nn emb (some (uT, eT)) fwd
      = [bpr_loss (mulSum (users.map uT) (pos_items.map eT))
            (mulSum (users.map uT) (neg_items.map eT))]
        ++ (if cf_pos_flag then
              [wp * (if lf = "mae" then
                  mae_loss (mulSum (users.map uT) (pos_items.map eT))
                    (mulSum (users.map uT)
                      (get_cf_i_embeddings m L emb Np pos_items))
                else bpr_loss
                  (mulSum (users.map uT)
                    (get_cf_i_embeddings m L emb Np pos_items))
                  (mulSum (users.map uT) (neg_items.map eT)))]
            else [])
        ++ (if cf_neg_flag then
              [wn * (if lf = "mae" then
                  mae_loss (mulSum (users.map uT) (neg_items.map eT))
                    (mulSum (users.map uT)
                      (get_cf_i_embeddings m L emb Nn neg_items))
                else bpr_loss (mulSum (users.map uT) (pos_items.map eT))
                  (mulSum (users.map uT)
                    (get_cf_i_embeddings m L emb Nn neg_items)))]
            else []))
    ∧ calculate_loss cf_pos_flag cf_neg_flag lf wp wn m L users pos_items
        neg_items Np Nn emb (some (uT, eT)) fwd
      = calculate_loss cf_pos_flag cf_neg_flag lf wp wn m L users pos_items
          neg_items Np Nn emb (some (uT, eT)) fwd'
    ∧ calculate_loss cf_pos_flag cf_neg_flag lf wp wn m L users pos_items
        neg_items Np Nn emb none fwd
      = calculate_loss cf_pos_flag cf_neg_flag lf wp wn m L users pos_items
          neg_items Np Nn emb (some fwd) fwd := by
  refine ⟨?_, rfl, rfl⟩
  simp only [calculate_loss, Option.getD_some]
  cases cf_pos_flag <;> cases cf_neg_flag <;> simp

/-- C1: row-wise, the positive-direction entry point returns
`reward1 = log(gamma + sigmoid(cf_pos_score1 - true_neg_score))
- ib_beta * L2norm(cf_pos_embedding1)` and
`reward2 = log(gamma + sigmoid(true_pos_score - cf_pos_score2))`;
the negative-direction entry point returns
`reward1 = log(gamma + sigmoid(true_pos_score - cf_neg_score1))
- ib_beta * L2norm(cf_neg_embedding1)` and
`reward2 = log(gamma + sigmoid(cf_neg_score2 - true_neg_score))`,
each counterfactual score being the dot product of the batch user
embedding with the counterfactual item embedding built from the
corresponding neighbor table. -/
theorem generate_rewards_spec {d : ℕ} (ib_beta : ℝ) (m L : ℕ)
    (users pos_items neg_items : List ℕ) (N1 N2 : ℕ → List ℕ)
    (uE eE emb : ℕ → V d) (i : ℕ)
    (hu : i < users.length) (hp : i < pos_items.length)
    (hn : i < neg_items.length) :
    ((generate_pos_reward ib_beta m L users pos_items neg_items N1 N2
          uE eE emb).1.getD i 0
      = Real.log (gamma + sigmoid
          (dotV (uE (users.getD i 0))
              ((get_cf_i_embeddings m L emb N1 pos_items).getD i 0)
            - dotV (uE (users.getD i 0)) (eE (neg_items.getD i 0))))
        - ib_beta * vnorm ((get_cf_i_embeddings m L emb N1 pos_items).getD i 0))
    ∧ ((generate_pos_reward ib_beta m L users pos_items neg_items N1 N2
          uE eE emb).2.getD i 0
      = Real.log (gamma + sigmoid
          (dotV (uE (users.getD i 0)) (eE (pos_items.getD i 0))
            - dotV (uE (users.getD i 0))
                ((get_cf_i_embeddings m L emb N2 pos_items).getD i 0))))
    ∧ ((generate_neg_reward ib_beta m L users pos_items neg_items N1 N2
          uE eE emb).1.getD i 0
      = Real.log (gamma + sigmoid
          (dotV (uE (users.getD i 0)) (eE (pos_items.getD i 0))
            - dotV (uE (users.getD i 0))
                ((get_cf_i_embeddings m L emb N1 neg_items).getD i 0)))
        - ib_beta * vnorm ((get_cf_i_embeddings m L emb N1 neg_items).getD i 0))
    ∧ ((generate_neg_reward ib_beta m L users pos_items neg_items N1 N2
          uE eE emb).2.getD i 0
      = Real.log (gamma + sigmoid
          (dotV (uE (users.getD i 0))
              ((get_cf_i_embeddings m L emb N2 neg_items).getD i 0)
            - dotV (uE (users.getD i 0)) (eE (neg_items.getD i 0))))) := by
  refine ⟨?_, ?_, ?_, ?_⟩
  · simp only [generate_pos_reward]
    rw [get_reward1_getD ib_beta _ _ _ i
        (by simp [mulSum, get_cf_i_embeddings_length]; omega)
        (by simp [mulSum]; omega)
        (by rw [get_cf_i_embeddings_length]; omega),
      mulSum_getD _ _ i (by simp; omega)
        (by rw [get_cf_i_embeddings_length]; omega),
      mulSum_getD _ _ i (by simp; omega) (by simp; omega),
      map_getD uE users i hu 0 0, map_getD eE neg_items i hn 0 0]
    ring
  · simp only [generate_pos_reward]
    rw [get_reward2_getD _ _ i (by simp [mulSum]; omega)
        (by simp [mulSum, get_cf_i_embeddings_length]; omega),
      mulSum_getD _ _ i (by simp; omega) (by simp; omega),
      mulSum_getD _ _ i (by simp; omega)
        (by rw [get_cf_i_embeddings_length]; omega),
      map_getD uE users i hu 0 0, map_getD eE pos_items i hp 0 0]
  · simp only [generate_neg_reward]
    rw [get_reward1_getD ib_beta _ _ _ i
        (by simp [mulSum]; omega)
        (by simp [mulSum, get_cf_i_embeddings_length]; omega)
        (by rw [get_cf_i_embeddings_length]; omega),
      mulSum_getD _ _ i (by simp; omega) (by simp; omega),
      mulSum_getD _ _ i (by simp; omega)
        (by rw [get_cf_i_embeddings_length]; omega),
      map_getD uE users i hu 0 0, map_getD eE pos_items i hp 0 0]
    ring
  · simp only [generate_neg_reward]
    rw [get_reward2_getD _ _ i
        (by simp [mulSum, get_cf_i_embeddings_length]; omega)
        (by simp [mulSum]; omega),
      mulSum_getD _ _ i (by simp; omega)
        (by rw [get_cf_i_embeddings_length]; omega),
      mulSum_getD _ _ i (by simp; omega) (by simp; omega),
      map_getD uE users i hu 0 0, map_getD eE neg_items i hn 0 0]

/-- Witness for `generate_rewards_spec` at a concrete input. -/
theorem generate_rewards_spec_witness :
    (0 < ([1] : List ℕ).length ∧ 0 < ([2] : List ℕ).length
      ∧ 0 < ([3] : List ℕ).length)
    ∧ (((generate_pos_reward (2 : ℝ) 1 0 [1] [2] [3] (fun _ => [4])
            (fun _ => [5]) ((fun n _ => (n : ℝ)) : ℕ → V 1) ((fun n _ => (n : ℝ) + 1) : ℕ → V 1)
            ((fun n _ => (n : ℝ) * 2) : ℕ → V 1)).1.getD 0 0
        = Real.log (gamma + sigmoid
            (dotV (((fun n _ => (n : ℝ)) : ℕ → V 1) (([1] : List ℕ).getD 0 0))
                ((get_cf_i_embeddings 1 0 ((fun n _ => (n : ℝ) * 2) : ℕ → V 1)
                    (fun _ => [4]) [2]).getD 0 0)
              - dotV (((fun n _ => (n : ℝ)) : ℕ → V 1) (([1] : List ℕ).getD 0 0))
                  (((fun n _ => (n : ℝ) + 1) : ℕ → V 1) (([3] : List ℕ).getD 0 0))))
          - 2 * vnorm ((get_cf_i_embeddings 1 0 ((fun n _ => (n : ℝ) * 2) : ℕ → V 1)
              (fun _ => [4]) [2]).getD 0 0))
      ∧ ((generate_pos_reward (2 : ℝ) 1 0 [1] [2] [3] (fun _ => [4])
            (fun _ => [5]) ((fun n _ => (n : ℝ)) : ℕ → V 1) ((fun n _ => (n : ℝ) + 1) : ℕ → V 1)
            ((fun n _ => (n : ℝ) * 2) : ℕ → V 1)).2.getD 0 0
        = Real.log (gamma + sigmoid
            (dotV (((fun n _ => (n : ℝ)) : ℕ → V 1) (([1] : List ℕ).getD 0 0))
                (((fun n _ => (n : ℝ) + 1) : ℕ → V 1) (([2] : List ℕ).getD 0 0))
              - dotV (((fun n _ => (n : ℝ)) : ℕ → V 1) (([1] : List ℕ).getD 0 0))
                  ((get_cf_i_embeddings 1 0 ((fun n _ => (n : ℝ) * 2) : ℕ → V 1)
                      (fun _ => [5]) [2]).getD 0 0))))
      ∧ ((generate_neg_reward (2 : ℝ) 1 0 [1] [2] [3] (fun _ => [4])
            (fun _ => [5]) ((fun n _ => (n : ℝ)) : ℕ → V 1) ((fun n _ => (n : ℝ) + 1) : ℕ → V 1)
            ((fun n _ => (n : ℝ) * 2) : ℕ → V 1)).1.getD 0 0
        = Real.log (gamma + sigmoid
            (dotV (((fun n _ => (n : ℝ)) : ℕ → V 1) (([1] : List ℕ).getD 0 0))
                (((fun n _ => (n : ℝ) + 1) : ℕ → V 1) (([2] : List ℕ).getD 0 0))
              - dotV (((fun n _ => (n : ℝ)) : ℕ → V 1) (([1] : List ℕ).getD 0 0))
                  ((get_cf_i_embeddings 1 0 ((fun n _ => (n : ℝ) * 2) : ℕ → V 1)
                      (fun _ => [4]) [3]).getD 0 0)))
          - 2 * vnorm ((get_cf_i_embeddings 1 0 ((fun n _ => (n : ℝ) * 2) : ℕ → V 1)
              (fun _ => [4]) [3]).getD 0 0))
      ∧ ((generate_neg_reward (2 : ℝ) 1 0 [1] [2] [3] (fun _ => [4])
            (fun _ => [5]) ((fun n _ => (n : ℝ)) : ℕ → V 1) ((fun n _ => (n : ℝ) + 1) : ℕ → V 1)
            ((fun n _ => (n : ℝ) * 2) : ℕ → V 1)).2.getD 0 0
        = Real.log (gamma + sigmoid
            (dotV (((fun n _ => (n : ℝ)) : ℕ → V 1) (([1] : List ℕ).getD 0 0))
                ((get_cf_i_embeddings 1 0 ((fun n _ => (n : ℝ) * 2) : ℕ → V 1)
                    (fun _ => [5]) [3]).getD 0 0)
              - dotV (((fun n _ => (n : ℝ)) : ℕ → V 1) (([1] : List ℕ).getD 0 0))
                  (((fun n _ => (n : ℝ) + 1) : ℕ → V 1) (([3] : List ℕ).getD 0 0)))))) :=
  ⟨⟨by simp, by simp, by simp⟩,
    generate_rewards_spec (2 : ℝ) 1 0 [1] [2] [3] (fun _ => [4])
      (fun _ => [5]) ((fun n _ => (n : ℝ)) : ℕ → V 1) ((fun n _ => (n : ℝ) + 1) : ℕ → V 1)
      ((fun n _ => (n : ℝ) * 2) : ℕ → V 1) 0 (by simp) (by simp) (by simp)⟩

/-- Iterated left-multiplication is multiplication by a matrix power. -/
theorem mul_iterate {α ι κ : Type} [Field α] [Fintype ι] [DecidableEq ι]
    (adj : Matrix ι ι α) (k : ℕ) (x : Matrix ι κ α) :
    (fun y => adj * y)^[k] x = adj ^ k * x := by
  induction k generalizing x with
  | zero => simp
  | succ k ih =>
    rw [Function.iterate_succ_apply, ih, ← Matrix.mul_assoc, ← pow_succ]

/-- The propagation loop unrolls to iterated multiplications. -/
theorem through_graph_loop_eq {α ι κ : Type} [Field α] [Fintype ι]
    (adj : Matrix ι ι α) (k : ℕ) (acc : List (Matrix ι κ α))
    (cur : Matrix ι κ α) :
    through_graph_loop adj k acc cur
      = acc ++ (List.range k).map
          (fun j => (fun y => adj * y)^[j] (adj * cur)) := by
  induction k generalizing acc cur with
  | zero => simp [through_graph_loop]
  | succ k ih =>
    rw [through_graph_loop, ih, map_range_iterate_succ]
    simp [List.append_assoc]

/-- Helper: a mapped range sums to the `Finset.range` sum. -/
theorem list_range_map_sum {M : Type} [AddCommMonoid M] (f : ℕ → M)
    (n : ℕ) : ((List.range n).map f).sum = ∑ k ∈ Finset.range n, f k := by
  induction n with
  | zero => simp
  | succ n ih =>
    rw [List.range_succ, List.map_append, List.sum_append,
      Finset.sum_range_succ, ih]
    simp

/-- C2: `through_graph(adj, E, L)` is the mean of the `L + 1` matrices
`E, adj*E, ..., adj^L*E` — the average over all propagation depths
including the layer-0 input. -/
theorem through_graph_spec {α ι κ : Type} [Field α] [Fintype ι]
    [DecidableEq ι] (adj : Matrix ι ι α) (E : Matrix ι κ α) (L : ℕ) :
    through_graph adj E L
      = ((L : α) + 1)⁻¹ • ∑ k ∈ Finset.range (L + 1), adj ^ k * E := by
  have key : through_graph_loop adj L [E] E
      = (List.range (L + 1)).map (fun k => adj ^ k * E) := by
    rw [through_graph_loop_eq, List.singleton_append, ← map_range_iterate_succ]
    apply List.map_congr_left
    intro k _
    exact mul_iterate adj k E
  rw [through_graph, key, matListMean, list_range_map_sum]
  simp only [List.length_map, List.length_range]
  push_cast
  rfl

/-- Each operation leaves both embedding tables untouched. -/
theorem step_preserves_tables (p : Params) (st : MState p) (o : Op) :
    (step p st o).userW = st.userW ∧ (step p st o).entityW = st.entityW := by
  cases o <;> first
    | exact ⟨rfl, rfl⟩
    | (simp only [step]; split <;> exact ⟨rfl, rfl⟩)

/-- Any operation sequence leaves both embedding tables untouched. -/
theorem runOps_preserves_tables (p : Params) (ops : List Op) :
    ∀ st : MState p, (runOps p st ops).userW = st.userW
      ∧ (runOps p st ops).entityW = st.entityW := by
  induction ops with
  | nil => intro st; exact ⟨rfl, rfl⟩
  | cons o ops ih =>
    intro st
    have h := step_preserves_tables p st o
    have h2 := ih (step p st o)
    simp only [runOps, List.foldl_cons] at h2 ⊢
    exact ⟨h2.1.trans h.1, h2.2.trans h.2⟩

/-- C8: after initialization row 0 of both embedding tables is the zero
vector, and any sequence of model operations (forward, loss,
full-ranking prediction, reward generation) leaves both tables — hence
their row 0 — unchanged. -/
theorem embedding_row0_invariant (p : Params) (Wu We : ℕ → V p.d)
    (ops : List Op) :
    ((runOps p (initState p Wu We) ops).userW 0 = 0
      ∧ (runOps p (initState p Wu We) ops).entityW 0 = 0)
    ∧ (runOps p (initState p Wu We) ops).userW = (initState p Wu We).userW
    ∧ (runOps p (initState p Wu We) ops).entityW
        = (initState p Wu We).entityW := by
  have h := runOps_preserves_tables p ops (initState p Wu We)
  refine ⟨⟨?_, ?_⟩, h.1, h.2⟩
  · rw [h.1]
    simp [initState]
  · rw [h.2]
    simp [initState]

/-- C10: `forward` returns the KG-propagated entity table unchanged
(independent of the UI adjacency — the item half of the UI propagation
output is discarded); the flattened entity table used for item scores
agrees row-by-row with the KG-only propagation, and every
`full_sort_predict` score dots a UI-propagated user row with a KG-only
item row. -/
theorem forward_entity_kg_only {nU nI nE d : ℕ} (h : nI ≤ nE)
    (kg_adj : Matrix (Fin nE) (Fin nE) ℝ)
    (ui_adj ui_adj' : Matrix (Fin nU ⊕ Fin nI) (Fin nU ⊕ Fin nI) ℝ)
    (userW : Matrix (Fin nU) (Fin d) ℝ) (entW : Matrix (Fin nE) (Fin d) ℝ)
    (Lkg Lui : ℕ) :
    (forward h kg_adj ui_adj userW entW Lkg Lui).2
        = through_graph kg_adj entW Lkg
    ∧ (forward h kg_adj ui_adj userW entW Lkg Lui).2
        = (forward h kg_adj ui_adj' userW entW Lkg Lui).2
    ∧ (∀ (e : ℕ) (he : e < nE),
        flattenTab (forward h kg_adj ui_adj userW entW Lkg Lui).2 e
          = fun j => through_graph kg_adj entW Lkg ⟨e, he⟩ j)
    ∧ (∀ (u : Fin nU) (i : Fin nI),
        full_sort_predict (forward h kg_adj ui_adj userW entW Lkg Lui).1
          (Matrix.of fun (i : Fin nI) j =>
            (forward h kg_adj ui_adj userW entW Lkg Lui).2 (Fin.castLE h i) j)
          u i
        = ∑ j, (forward h kg_adj ui_adj userW entW Lkg Lui).1 u j
            * through_graph kg_adj entW Lkg (Fin.castLE h i) j) := by
  refine ⟨rfl, rfl, ?_, fun u i => rfl⟩
  intro e he
  simp [flattenTab, he, forward]

/-- Witness for `forward_entity_kg_only` at a concrete input. -/
theorem forward_entity_kg_only_witness :
    1 ≤ 1
    ∧ ((forward (le_refl 1) exSq1 exUi1 exSq1 exSq1 1 1).2
        = through_graph exSq1 exSq1 1
      ∧ (forward (le_refl 1) exSq1 exUi1 exSq1 exSq1 1 1).2
        = (forward (le_refl 1) exSq1 exUi2 exSq1 exSq1 1 1).2
      ∧ (∀ (e : ℕ) (he : e < 1),
          flattenTab (forward (le_refl 1) exSq1 exUi1 exSq1 exSq1 1 1).2 e
            = fun j => through_graph exSq1 exSq1 1 ⟨e, he⟩ j)
      ∧ (∀ (u : Fin 1) (i : Fin 1),
          full_sort_predict (forward (le_refl 1) exSq1 exUi1 exSq1 exSq1 1 1).1
            (Matrix.of fun (i : Fin 1) j =>
              (forward (le_refl 1) exSq1 exUi1 exSq1 exSq1 1 1).2
                (Fin.castLE (le_refl 1) i) j)
            u i
          = ∑ j, (forward (le_refl 1) exSq1 exUi1 exSq1 exSq1 1 1).1 u j
              * through_graph exSq1 exSq1 1 (Fin.castLE (le_refl 1) i) j)) :=
  ⟨le_refl 1,
    forward_entity_kg_only (le_refl 1) exSq1 exUi1 exUi2 exSq1 exSq1 1 1⟩

/-- The raw UI block adjacency is a 0/1 matrix. -/
theorem ui_adj_raw_01 {nU nI : ℕ} (R : Fin nU → Fin nI → Bool)
    (x y : Fin nU ⊕ Fin nI) :
    ui_adj_raw R x y = 0 ∨ ui_adj_raw R x y = 1 := by
  rcases x with u | i <;> rcases y with u' | i'
  · left; rfl
  · cases hR : R u i' <;> simp [ui_adj_raw, hR]
  · cases hR : R u' i <;> simp [ui_adj_raw, hR]
  · left; rfl

/-- Rows of `norm_adj` on a 0/1 matrix whose every row and column count
is the same `k ≥ 1` sum to `k / (k + 1e-7)`, within `1e-7` of 1. -/
theorem norm_adj_row_sum_regular {ι : Type} [Fintype ι]
    (adj : Matrix ι ι ℚ) (k : ℕ) (hk : 1 ≤ k)
    (h01 : ∀ x y, adj x y = 0 ∨ adj x y = 1)
    (hdeg : ∀ x, degree adj x = k) (x : ι) :
    |∑ y, norm_adj adj x y - 1| ≤ 1e-7 := by
  have hentry : ∀ y, norm_adj adj x y
      = (Real.sqrt ((k : ℝ) + 1e-7))⁻¹ * ((adj x y : ℚ) : ℝ)
        * (Real.sqrt ((k : ℝ) + 1e-7))⁻¹ := by
    intro y
    simp [norm_adj, hdeg]
  have hsum : ∑ y, ((adj x y : ℚ) : ℝ) = (k : ℝ) := by
    have hterm : ∀ y, ((adj x y : ℚ) : ℝ)
        = if 0 < adj x y then (1 : ℝ) else 0 := by
      intro y
      rcases h01 x y with h | h <;> rw [h] <;> norm_num
    calc ∑ y, ((adj x y : ℚ) : ℝ)
        = ∑ y, if 0 < adj x y then (1 : ℝ) else 0 :=
          Finset.sum_congr rfl (fun y _ => hterm y)
      _ = ((Finset.univ.filter (fun y => 0 < adj x y)).card : ℝ) := by
          rw [Finset.sum_boole]
      _ = (k : ℝ) := by
          rw [show (Finset.univ.filter (fun y => 0 < adj x y)).card
              = degree adj x from rfl, hdeg x]
  have hkpos : (0 : ℝ) < (k : ℝ) + 1e-7 := by positivity
  have hrow : ∑ y, norm_adj adj x y
      = (k : ℝ) * ((Real.sqrt ((k : ℝ) + 1e-7))⁻¹
          * (Real.sqrt ((k : ℝ) + 1e-7))⁻¹) := by
    calc ∑ y, norm_adj adj x y
        = ∑ y, (Real.sqrt ((k : ℝ) + 1e-7))⁻¹ * ((adj x y : ℚ) : ℝ)
            * (Real.sqrt ((k : ℝ) + 1e-7))⁻¹ :=
          Finset.sum_congr rfl (fun y _ => hentry y)
      _ = (Real.sqrt ((k : ℝ) + 1e-7))⁻¹ * (∑ y, ((adj x y : ℚ) : ℝ))
            * (Real.sqrt ((k : ℝ) + 1e-7))⁻¹ := by
          rw [← Finset.sum_mul, ← Finset.mul_sum]
      _ = _ := by rw [hsum]; ring
  have hss : (Real.sqrt ((k : ℝ) + 1e-7))⁻¹ * (Real.sqrt ((k : ℝ) + 1e-7))⁻¹
      = ((k : ℝ) + 1e-7)⁻¹ := by
    rw [← mul_inv, Real.mul_self_sqrt (le_of_lt hkpos)]
  rw [hrow, hss]
  have h1k : (1 : ℝ) ≤ (k : ℝ) := by exact_mod_cast hk
  have hmul : ((k : ℝ) + 1e-7) * ((k : ℝ) + 1e-7)⁻¹ = 1 :=
    mul_inv_cancel₀ (ne_of_gt hkpos)
  have hinv : ((k : ℝ) + 1e-7)⁻¹ ≤ 1 := by
    nlinarith [inv_pos.mpr hkpos]
  have hinvpos : (0 : ℝ) < ((k : ℝ) + 1e-7)⁻¹ := inv_pos.mpr hkpos
  have key : (k : ℝ) * ((k : ℝ) + 1e-7)⁻¹ - 1
      = -(1e-7) * ((k : ℝ) + 1e-7)⁻¹ := by nlinarith [hmul]
  rw [abs_le, key]
  constructor <;> nlinarith

/-- C3 amended: a row of the normalized UI adjacency sums to
`k / (k + 1e-7)` — within `1e-7` of 1 — when every user and item has
the same interaction degree `k ≥ 1`; for irregular degrees the row sums
are not approximately 1 (see the counterexample). -/
theorem get_ui_adj_row_sum_regular {nU nI : ℕ}
    (R : Fin nU → Fin nI → Bool) (k : ℕ) (hk : 1 ≤ k)
    (hdeg : ∀ x, degree (ui_adj_raw R) x = k) (x : Fin nU ⊕ Fin nI) :
    |∑ y, get_ui_adj R x y - 1| ≤ 1e-7 :=
  norm_adj_row_sum_regular (ui_adj_raw R) k hk
    (fun a b => ui_adj_raw_01 R a b) hdeg x

/-- Witness for `get_ui_adj_row_sum_regular` at a concrete input. -/
theorem get_ui_adj_row_sum_regular_witness :
    (1 ≤ 1
      ∧ (∀ x, degree (ui_adj_raw (fun (_ : Fin 1) (_ : Fin 1) => true)) x = 1))
    ∧ |∑ y, get_ui_adj (fun (_ : Fin 1) (_ : Fin 1) => true) (Sum.inl 0) y - 1|
        ≤ 1e-7 :=
  ⟨⟨le_refl 1, by decide⟩,
    get_ui_adj_row_sum_regular (fun _ _ => true) 1 (le_refl 1)
      (by decide) (Sum.inl 0)⟩

/-- C3 counterexample: for one user interacting with two items, the
user's row of the normalized UI adjacency sums to
`2 / (sqrt(2 + 1e-7) * sqrt(1 + 1e-7)) ≈ 1.414`, which deviates from 1
by more than 1/10 — row sums of `D^(-1/2) A D^(-1/2)` are not
approximately 1 for irregular degree distributions. -/
theorem get_ui_adj_row_sum_counterexample :
    1 / 10 < |∑ y, get_ui_adj (fun (_ : Fin 1) (_ : Fin 2) => true)
        (Sum.inl 0) y - 1| := by
  have hd0 : degree (ui_adj_raw (fun (_ : Fin 1) (_ : Fin 2) => true))
      (Sum.inl 0) = 2 := by decide
  have hd1 : degree (ui_adj_raw (fun (_ : Fin 1) (_ : Fin 2) => true))
      (Sum.inr 0) = 1 := by decide
  have hd2 : degree (ui_adj_raw (fun (_ : Fin 1) (_ : Fin 2) => true))
      (Sum.inr 1) = 1 := by decide
  have hsum : ∑ y, get_ui_adj (fun (_ : Fin 1) (_ : Fin 2) => true)
      (Sum.inl 0) y
      = 2 * ((Real.sqrt ((2 : ℝ) + 1e-7))⁻¹
          * (Real.sqrt ((1 : ℝ) + 1e-7))⁻¹) := by
    rw [Fintype.sum_sum_type]
    rw [Fin.sum_univ_one, Fin.sum_univ_two]
    simp only [get_ui_adj, norm_adj, Matrix.of_apply, hd0, hd1, hd2]
    norm_num [ui_adj_raw]
    ring
  rw [hsum]
  have s2pos : 0 < Real.sqrt ((2 : ℝ) + 1e-7) :=
    Real.sqrt_pos.mpr (by norm_num)
  have s1pos : 0 < Real.sqrt ((1 : ℝ) + 1e-7) :=
    Real.sqrt_pos.mpr (by norm_num)
  have hs2 : Real.sqrt ((2 : ℝ) + 1e-7) < 1.42 :=
    (Real.sqrt_lt' (by norm_num)).mpr (by norm_num)
  have hs1 : Real.sqrt ((1 : ℝ) + 1e-7) < 1.01 :=
    (Real.sqrt_lt' (by norm_num)).mpr (by norm_num)
  have ha : ((1.42 : ℝ))⁻¹ < (Real.sqrt ((2 : ℝ) + 1e-7))⁻¹ :=
    inv_strictAnti₀ s2pos hs2
  have hb : ((1.01 : ℝ))⁻¹ < (Real.sqrt ((1 : ℝ) + 1e-7))⁻¹ :=
    inv_strictAnti₀ s1pos hs1
  have hapos : (0 : ℝ) < (Real.sqrt ((2 : ℝ) + 1e-7))⁻¹ := by positivity
  have hbpos : (0 : ℝ) < (Real.sqrt ((1 : ℝ) + 1e-7))⁻¹ := by positivity
  have hval : (1.1 : ℝ) < 2 * ((Real.sqrt ((2 : ℝ) + 1e-7))⁻¹
      * (Real.sqrt ((1 : ℝ) + 1e-7))⁻¹) := by
    nlinarith
  calc (1 : ℝ) / 10
      < 2 * ((Real.sqrt ((2 : ℝ) + 1e-7))⁻¹
          * (Real.sqrt ((1 : ℝ) + 1e-7))⁻¹) - 1 := by linarith
    _ ≤ |2 * ((Real.sqrt ((2 : ℝ) + 1e-7))⁻¹
          * (Real.sqrt ((1 : ℝ) + 1e-7))⁻¹) - 1| := le_abs_self _

/-- Membership in the dok key list of `get_kg_adj`. -/
theorem mem_kg_pairs (n : ℕ) (N : ℕ → List ℕ) (i c : ℕ) :
    (i, c) ∈ kg_pairs n N ↔ i < n ∧ c ∈ N i ∧ c ≠ 0 := by
  simp only [kg_pairs, List.mem_flatMap, List.mem_range, List.mem_map,
    List.mem_filter, Prod.mk.injEq, decide_eq_true_eq]
  constructor
  · rintro ⟨a, ha, c', ⟨hc', h0⟩, rfl, rfl⟩
    exact ⟨ha, hc', h0⟩
  · rintro ⟨hi, hc, h0⟩
    exact ⟨i, hi, c, ⟨hc, h0⟩, rfl, rfl⟩

/-- C6 counterexample: entity 1 has both neighbor slots equal to
entity 1 (sampling with replacement repeated a neighbor). The dict
collapses the duplicate key, so the edge weight stays
`1 / max_neighbor_size = 1/2` instead of the slot-multiplicity average
`count/max_neighbor_size = 2/2` — the row does not uniformly average
over the neighbor slots. -/
theorem get_kg_adj_duplicate_counterexample :
    get_kg_adj 2 2 (fun i => if i = 1 then [1, 1] else [0, 0]) 1 1 = 1 / 2
    ∧ get_kg_adj 2 2 (fun i => if i = 1 then [1, 1] else [0, 0]) 1 1
        ≠ ((((fun i => if i = 1 then [1, 1] else [0, 0]) :
              ℕ → List ℕ) 1).count 1 : ℚ) / 2 := by
  have hmem : ((1 : ℕ), (1 : ℕ)) ∈ kg_pairs 2
      (fun i => if i = 1 then [1, 1] else [0, 0]) := by decide
  have hval : get_kg_adj 2 2 (fun i => if i = 1 then [1, 1] else [0, 0]) 1 1
      = 1 / 2 := by
    simp only [get_kg_adj, if_pos hmem]
    norm_num
  have hcount : (((fun i => if i = 1 then [1, 1] else [0, 0]) :
      ℕ → List ℕ) 1).count 1 = 2 := by decide
  refine ⟨hval, ?_⟩
  rw [hval, hcount]
  norm_num

/-- C6 amended: for every entity `i < n_entities`, the adjacency entry
to `c` is `1 / max_neighbor_size` exactly when `c` is a nonzero listed
neighbor of `i` — once per distinct neighbor regardless of how many
slots repeat it — and 0 otherwise; in particular sentinel-0 padding
slots contribute no edge. -/
theorem get_kg_adj_entry (n m : ℕ) (N : ℕ → List ℕ) (i c : ℕ)
    (hi : i < n) :
    get_kg_adj n m N i c
      = if c ∈ N i ∧ c ≠ 0 then 1 / (m : ℚ) else 0 := by
  simp only [get_kg_adj, mem_kg_pairs, hi, true_and]

/-- Witness for `get_kg_adj_entry` at a concrete input. -/
theorem get_kg_adj_entry_witness :
    1 < 2
    ∧ get_kg_adj 2 2 (fun i => if i = 1 then [1, 1] else [0, 0]) 1 1
      = if 1 ∈ ((fun i => if i = 1 then [1, 1] else [0, 0]) :
            ℕ → List ℕ) 1 ∧ (1 : ℕ) ≠ 0 then 1 / ((2 : ℕ) : ℚ) else 0 :=
  ⟨by decide,
    get_kg_adj_entry 2 2 (fun i => if i = 1 then [1, 1] else [0, 0]) 1 1
      (by decide)⟩

end CGKR
